import Mathlib

/-!
# Verification of the SRCNN-PyTorch training driver (src/train.py)

A shallow embedding of the training orchestration in `src/train.py`:
the optimizer parameter groups, the training-loop logging cadence, the
validation averaging, the resume/checkpoint logic, and the epoch loop of
`main` with its best/rolling/last snapshot decisions.

Numeric values (learning rates, PSNR values) are embedded as rationals.
Per-batch PSNR values and per-epoch average PSNR values are abstracted as
inputs (each depends only on the tensors of its batch / the model state of
its epoch); the control flow that consumes them is translated directly
from the source.
-/

namespace SRCNN

/-! ## Optimizer parameter groups (src/train.py, define_optimizer, lines 50-66) -/

/-- One optimizer parameter group: the sub-module whose parameters it holds
and its effective learning rate. -/
structure ParamGroup where
  group : String
  lr : ℚ
deriving DecidableEq, Repr

/-- `define_optimizer` from src/train.py lines 50-66.  Both branches build the
same three parameter groups: `features` and `map` fall back to the
optimizer-level rate `model_lr`, while `reconstruction` carries the explicit
override `model_lr * 0.1`.  The branch taken (SGD with momentum vs Adam) only
changes the update rule, which is PyTorch library code; the groups and their
rates are what this embedding keeps. -/
def define_optimizer (model_optimizer_name : String) (model_lr : ℚ) :
    List ParamGroup :=
  if model_optimizer_name = "sgd" then
    [⟨"features", model_lr⟩, ⟨"map", model_lr⟩,
     ⟨"reconstruction", model_lr * (1/10)⟩]
  else
    [⟨"features", model_lr⟩, ⟨"map", model_lr⟩,
     ⟨"reconstruction", model_lr * (1/10)⟩]

/-! ## Training-loop logging cadence (src/train.py, train, lines 75-103) -/

/-- The condition on src/train.py line 100 deciding whether iteration
`index` (0-based) of an epoch with `batches` batches emits a log record,
expressed for the 1-based iteration number `i = index + 1`:
`(index + 1) % 100 == 0 or (index + 1) == batches`. -/
def logEmitted (i batches : ℕ) : Bool :=
  i % 100 == 0 || i == batches

/-- The list of 1-based iteration numbers at which the training loop of
src/train.py (lines 81-103) emits a log record, for an epoch with
`batches` batches: the loop walks `index = 0, …, batches - 1` and logs
when `logEmitted (index + 1) batches`. -/
def trainLogIters (batches : ℕ) : List ℕ :=
  (List.range batches).filterMap
    (fun index => if logEmitted (index + 1) batches then some (index + 1) else none)

/-! ## Validation averaging (src/train.py, validate, lines 106-129) -/

/-- Python's true division `x / n` with an integer divisor: raises
`ZeroDivisionError` when `n = 0` (Python raises for a zero divisor even on
floats, unlike IEEE hardware division), modelled as `none`. -/
def pythonDiv (x : ℚ) (n : ℕ) : Option ℚ :=
  if n = 0 then none else some (x / n)

/-- `validate` from src/train.py lines 106-129, abstracted over the
per-batch PSNR values: the loop accumulates `total_psnr` over the batches
in order (line 121) and line 123 divides by `batches = len(valid_dataloader)`.
Each per-batch PSNR depends only on that batch's tensors (the model is in
eval mode under `no_grad`, so validation mutates nothing), so the batch
sequence is represented by its list of PSNR values. -/
def validateAvg (psnrs : List ℚ) : Option ℚ :=
  pythonDiv psnrs.sum psnrs.length

/-! ## Resume / checkpoint loading (src/train.py, resume_checkpoint, lines 69-72) -/

/-- A model state dict: parameter names with their (abstracted) values. -/
abbrev StateDict := List (String × ℤ)

/-- `true` iff the two state dicts have the same set of parameter names. -/
def sameNameSet (a b : StateDict) : Bool :=
  (a.map Prod.fst).all (fun n => (b.map Prod.fst).contains n) &&
  (b.map Prod.fst).all (fun n => (a.map Prod.fst).contains n)

/-- Merge a loaded file into a model state dict: every parameter keeps its
name; a parameter whose name appears in the file takes the file's value,
any other keeps its current value. -/
def mergeDict (model file : StateDict) : StateDict :=
  model.map (fun p => (p.1, ((file.lookup p.1).getD p.2)))

/-- Modelled from the spec: `torch.nn.Module.load_state_dict` is PyTorch
library code, not part of src/.  Spec §4.5: "`load(path, strict)`
deserializes into a Model State; if `strict` is true, the parameter-name
set of the file must exactly match the target Model's current parameter
set, else it fails fatally; if false, mismatched entries are silently
skipped." -/
def load_state_dict (model file : StateDict) (strict : Bool) :
    Except String StateDict :=
  if strict && !(sameNameSet model file) then
    Except.error "strict load failed: parameter name sets differ"
  else
    Except.ok (mergeDict model file)

/-- `resume_checkpoint` from src/train.py lines 69-72: under
`config.resume` and a non-empty `config.resume_weight`, loads the file's
state dict into the model with `strict=config.strict`; otherwise the model
is untouched.  The content read by `torch.load(config.resume_weight)` is
abstracted as the argument `file`. -/
def resume_checkpoint (resume : Bool) (resume_weight : String) (strict : Bool)
    (file : StateDict) (model : StateDict) : Except String StateDict :=
  if resume then
    if resume_weight ≠ "" then load_state_dict model file strict
    else Except.ok model
  else Except.ok model

/-! ## The epoch loop of `main` (src/train.py, main, lines 132-184) -/

/-- A checkpoint write performed by `main`:
`rolling n` is `torch.save(..., samples_dir/epoch_<n>.pth)` (line 178, with
`n = epoch + 1`), `best n` is `torch.save(..., results_dir/best.pth)` after
epoch index `n`'s validation (line 180), and `last` is
`torch.save(..., results_dir/last.pth)` (line 183). -/
inductive SaveEvent where
  | rolling (epochNum : ℕ)
  | best (epoch : ℕ)
  | last
deriving DecidableEq, Repr

/-- The Python `epoch` indices visited by `for epoch in range(start_epoch,
epochs)` on line 171 (empty when `start_epoch ≥ epochs`, exactly as in
Python). -/
def epochIndices (start_epoch epochs : ℕ) : List ℕ :=
  List.range' start_epoch (epochs - start_epoch)

/-- The body of the epoch loop of `main` (lines 171-180), run over a list of
epoch indices with the running `best_psnr` threaded through.  For each epoch:
`psnr = validate(...)` (abstracted as `f epoch`), `is_best = psnr > best_psnr`,
`best_psnr = max(psnr, best_psnr)`, then the rolling snapshot is written and,
if `is_best`, the best snapshot.  Returns the final `best_psnr` and the
ordered list of checkpoint writes. -/
def loopEvents (l : List ℕ) (best_psnr : ℚ) (f : ℕ → ℚ) :
    ℚ × List SaveEvent :=
  match l with
  | [] => (best_psnr, [])
  | epoch :: rest =>
      let psnr := f epoch
      let is_best := best_psnr < psnr
      let r := loopEvents rest (max psnr best_psnr) f
      (r.1, SaveEvent.rolling (epoch + 1) ::
              ((if is_best then [SaveEvent.best epoch] else []) ++ r.2))

/-- `main`'s training phase (lines 168-183): `best_psnr = 0.0`, the epoch
loop over `range(start_epoch, epochs)`, and the unconditional final
`last.pth` write.  `f epoch` abstracts the average validation PSNR that
`validate` returns for that epoch. -/
def mainRun (start_epoch epochs : ℕ) (f : ℕ → ℚ) : ℚ × List SaveEvent :=
  let r := loopEvents (epochIndices start_epoch epochs) 0 f
  (r.1, r.2 ++ [SaveEvent.last])

/-- The value of `best_psnr` after the first `k` epochs of a run whose loop
starts at epoch `s` with initial best value `b`: follows the loop, which at
epoch `s` updates the best to `max (f s) b` and continues from `s + 1`. -/
def bestAfterFrom (s k : ℕ) (b : ℚ) (f : ℕ → ℚ) : ℚ :=
  match k with
  | 0 => b
  | k + 1 => bestAfterFrom (s + 1) k (max (f s) b) f

/-- The value of `best_psnr` in `main` after the checkpoint decision of the
`k`-th executed epoch (initial value `0.0`, loop starting at `start_epoch = s`). -/
def bestAfter (s k : ℕ) (f : ℕ → ℚ) : ℚ :=
  bestAfterFrom s k 0 f

/-- Classifier for rolling snapshot events. -/
def isRolling : SaveEvent → Bool
  | SaveEvent.rolling _ => true
  | _ => false

/-- Classifier for last-snapshot events. -/
def isLast : SaveEvent → Bool
  | SaveEvent.last => true
  | _ => false

/-- The epoch number a rolling event writes (`epoch_<n>.pth`), if any. -/
def rollingNum : SaveEvent → Option ℕ
  | SaveEvent.rolling n => some n
  | _ => none

/-- The full `main` procedure in dependency order (lines 132-184): resume
happens before the epoch loop (line 161 precedes line 171), so a fatal
resume error yields no epochs and no checkpoint writes; on success the
loaded model state and the loop's outcome are returned. -/
def main (resume : Bool) (resume_weight : String) (strict : Bool)
    (file model : StateDict) (start_epoch epochs : ℕ) (f : ℕ → ℚ) :
    Except String (StateDict × ℚ × List SaveEvent) :=
  match resume_checkpoint resume resume_weight strict file model with
  | Except.error e => Except.error e
  | Except.ok m => Except.ok (m, mainRun start_epoch epochs f)

/-! ## Helper lemmas -/

/-- One unfolding step of the epoch loop. -/
lemma loopEvents_cons (i : ℕ) (rest : List ℕ) (b : ℚ) (f : ℕ → ℚ) :
    loopEvents (i :: rest) b f =
      ((loopEvents rest (max (f i) b) f).1,
       SaveEvent.rolling (i + 1) ::
         ((if b < f i then [SaveEvent.best i] else []) ++
           (loopEvents rest (max (f i) b) f).2)) := rfl

/-- The final `best_psnr` of the loop over `range' s n` is `bestAfterFrom`. -/
lemma loopEvents_fst_range' (n : ℕ) : ∀ (s : ℕ) (b : ℚ) (f : ℕ → ℚ),
    (loopEvents (List.range' s n) b f).1 = bestAfterFrom s n b f := by
  induction n with
  | zero => intro s b f; rfl
  | succ n ih =>
      intro s b f
      rw [List.range'_succ, loopEvents_cons]
      exact ih (s + 1) (max (f s) b) f

/-- Unfolding `bestAfterFrom` at the back: the best after `k + 1` epochs is
the maximum of the best after `k` epochs and epoch `s + k`'s PSNR. -/
lemma bestAfterFrom_succ_back (k : ℕ) : ∀ (s : ℕ) (b : ℚ) (f : ℕ → ℚ),
    bestAfterFrom s (k + 1) b f = max (f (s + k)) (bestAfterFrom s k b f) := by
  induction k with
  | zero => intro s b f; simp [bestAfterFrom]
  | succ k ih =>
      intro s b f
      have h1 : bestAfterFrom s (k + 2) b f
          = bestAfterFrom (s + 1) (k + 1) (max (f s) b) f := rfl
      have h2 : bestAfterFrom s (k + 1) b f
          = bestAfterFrom (s + 1) k (max (f s) b) f := rfl
      have h3 : s + 1 + k = s + (k + 1) := by omega
      rw [h1, ih (s + 1) (max (f s) b) f, h2, h3]

/-- `bestAfterFrom s k b f < x` iff `x` beats the initial best `b` and every
PSNR of the first `k` epochs. -/
lemma bestAfterFrom_lt_iff (k : ℕ) : ∀ (s : ℕ) (b : ℚ) (f : ℕ → ℚ) (x : ℚ),
    bestAfterFrom s k b f < x ↔ (b < x ∧ ∀ j, j < k → f (s + j) < x) := by
  induction k with
  | zero =>
      intro s b f x
      simp [bestAfterFrom]
  | succ k ih =>
      intro s b f x
      have h1 : bestAfterFrom s (k + 1) b f
          = bestAfterFrom (s + 1) k (max (f s) b) f := rfl
      rw [h1, ih, max_lt_iff]
      constructor
      · rintro ⟨⟨hfs, hb⟩, hall⟩
        refine ⟨hb, fun j hj => ?_⟩
        cases j with
        | zero => simpa using hfs
        | succ j' =>
            have h2 : s + (j' + 1) = s + 1 + j' := by omega
            rw [h2]
            exact hall j' (by omega)
      · rintro ⟨hb, hall⟩
        refine ⟨⟨by simpa using hall 0 (by omega), hb⟩, fun j hj => ?_⟩
        have h2 : s + 1 + j = s + (j + 1) := by omega
        rw [h2]
        exact hall (j + 1) (by omega)

/-- A best-snapshot event names an epoch the loop actually visited. -/
lemma best_mem_loopEvents (l : List ℕ) : ∀ (b : ℚ) (f : ℕ → ℚ) (i : ℕ),
    SaveEvent.best i ∈ (loopEvents l b f).2 → i ∈ l := by
  induction l with
  | nil => intro b f i h; simp [loopEvents] at h
  | cons j rest ih =>
      intro b f i h
      rw [loopEvents_cons] at h
      rcases List.mem_cons.mp h with h | h
      · cases h
      · rcases List.mem_append.mp h with h | h
        · by_cases hb : b < f j
          · rw [if_pos hb] at h
            simp at h
            simp [h]
          · rw [if_neg hb] at h
            simp at h
        · exact List.mem_cons_of_mem _ (ih _ _ _ h)

/-- The best-snapshot event for the `k`-th executed epoch appears in the
loop's trace iff that epoch's PSNR strictly exceeds the running best
entering the epoch. -/
lemma best_mem_range' (n : ℕ) : ∀ (s : ℕ) (b : ℚ) (f : ℕ → ℚ) (k : ℕ),
    k < n →
    (SaveEvent.best (s + k) ∈ (loopEvents (List.range' s n) b f).2 ↔
      bestAfterFrom s k b f < f (s + k)) := by
  induction n with
  | zero => intro s b f k hk; exact absurd hk (Nat.not_lt_zero k)
  | succ n ih =>
      intro s b f k hk
      rw [List.range'_succ, loopEvents_cons]
      cases k with
      | zero =>
          simp only [Nat.add_zero]
          constructor
          · intro h
            rcases List.mem_cons.mp h with h | h
            · cases h
            · rcases List.mem_append.mp h with h | h
              · by_cases hb : b < f s
                · exact hb
                · rw [if_neg hb] at h
                  simp at h
              · exfalso
                have hmem := best_mem_loopEvents _ _ _ _ h
                have := List.mem_range'_1.mp hmem
                omega
          · intro hb
            apply List.mem_cons_of_mem
            apply List.mem_append_left
            rw [if_pos (show b < f s from hb)]
            simp
      | succ k' =>
          have h1 : s + (k' + 1) = s + 1 + k' := by omega
          have h2 : bestAfterFrom s (k' + 1) b f
              = bestAfterFrom (s + 1) k' (max (f s) b) f := rfl
          rw [h1, h2, ← ih (s + 1) (max (f s) b) f k' (by omega)]
          constructor
          · intro h
            rcases List.mem_cons.mp h with h | h
            · cases h
            · rcases List.mem_append.mp h with h | h
              · by_cases hb : b < f s
                · rw [if_pos hb] at h
                  simp at h
                  omega
                · rw [if_neg hb] at h
                  simp at h
              · exact h
          · intro h
            apply List.mem_cons_of_mem
            exact List.mem_append_right _ h

/-- Every executed epoch contributes exactly one rolling snapshot. -/
lemma countP_rolling_loopEvents (l : List ℕ) : ∀ (b : ℚ) (f : ℕ → ℚ),
    ((loopEvents l b f).2.countP isRolling) = l.length := by
  induction l with
  | nil => intro b f; rfl
  | cons i rest ih =>
      intro b f
      rw [loopEvents_cons]
      rw [List.countP_cons, List.countP_append, ih]
      have h1 : isRolling (SaveEvent.rolling (i + 1)) = true := rfl
      have h2 : (if b < f i then [SaveEvent.best i] else []).countP isRolling = 0 := by
        split
        · rfl
        · rfl
      rw [h1, h2, if_pos rfl]
      simp [List.length_cons]

/-- The loop itself never writes the last snapshot. -/
lemma countP_last_loopEvents (l : List ℕ) : ∀ (b : ℚ) (f : ℕ → ℚ),
    ((loopEvents l b f).2.countP isLast) = 0 := by
  induction l with
  | nil => intro b f; rfl
  | cons i rest ih =>
      intro b f
      rw [loopEvents_cons]
      rw [List.countP_cons, List.countP_append, ih]
      have h1 : isLast (SaveEvent.rolling (i + 1)) = false := rfl
      have h2 : (if b < f i then [SaveEvent.best i] else []).countP isLast = 0 := by
        split
        · rfl
        · rfl
      rw [h1, h2]
      simp

/-- The rolling snapshots written by the loop are `epoch_<i+1>.pth` for the
visited epochs `i`, in order. -/
lemma filterMap_rollingNum_loopEvents (l : List ℕ) : ∀ (b : ℚ) (f : ℕ → ℚ),
    ((loopEvents l b f).2.filterMap rollingNum) = l.map (fun i => i + 1) := by
  induction l with
  | nil => intro b f; rfl
  | cons i rest ih =>
      intro b f
      rw [loopEvents_cons]
      rw [List.filterMap_cons, List.filterMap_append, ih]
      have h2 : (if b < f i then [SaveEvent.best i] else []).filterMap rollingNum = [] := by
        split
        · rfl
        · rfl
      rw [h2]
      rfl

/-- Looking a name up in a merged state dict: a name the model holds takes
the file's value when the file has it and keeps the model's value otherwise;
a name the model does not hold is absent. -/
lemma lookup_mergeDict (model : StateDict) (file : StateDict) (n : String) :
    (mergeDict model file).lookup n
      = (model.lookup n).map (fun v => (file.lookup n).getD v) := by
  induction model with
  | nil => rfl
  | cons p rest ih =>
      obtain ⟨k, v⟩ := p
      by_cases h : n = k
      · subst h
        simp [mergeDict, List.lookup]
      · have hbeq : (n == k) = false := by
          simp [h]
        simp only [mergeDict, List.map_cons, List.lookup, hbeq] at ih ⊢
        exact ih

/-- The boolean logging condition, as a proposition. -/
lemma logEmitted_iff (i batches : ℕ) :
    logEmitted i batches = true ↔ (i % 100 = 0 ∨ i = batches) := by
  simp [logEmitted]

/-! ## Claim theorems -/

/-- C5: for every configuration and both optimizer variants ("sgd" and
"adam"), the reconstruction parameter group's learning rate is exactly
one-tenth of the base configured rate, while the features and map groups
use the base rate. -/
theorem optimizer_reconstruction_tenth_lr (name : String) (lr : ℚ)
    (h : name = "sgd" ∨ name = "adam") :
    define_optimizer name lr =
      [⟨"features", lr⟩, ⟨"map", lr⟩, ⟨"reconstruction", lr / 10⟩] := by
  rcases h with h | h <;> subst h <;> simp [define_optimizer] <;> ring

/-- Witness for C5 at the "adam" variant with base rate 2. -/
theorem optimizer_reconstruction_tenth_lr_witness :
    (("adam" : String) = "sgd" ∨ ("adam" : String) = "adam") ∧
    define_optimizer "adam" 2 =
      [⟨"features", 2⟩, ⟨"map", 2⟩, ⟨"reconstruction", (2 : ℚ) / 10⟩] :=
  ⟨Or.inr rfl, optimizer_reconstruction_tenth_lr "adam" 2 (Or.inr rfl)⟩

/-- C4: for every epoch with `batches` batches and every 1-based iteration
index `i` in `[1, batches]`, a training log record is emitted at iteration
`i` iff `i` is a multiple of 100 or `i` equals the number of batches, and
at no other index. -/
theorem train_log_cadence (i batches : ℕ) (h1 : 1 ≤ i) (h2 : i ≤ batches) :
    i ∈ trainLogIters batches ↔ (i % 100 = 0 ∨ i = batches) := by
  rw [trainLogIters, List.mem_filterMap]
  constructor
  · rintro ⟨a, ha, hg⟩
    by_cases hb : logEmitted (a + 1) batches = true
    · rw [if_pos hb] at hg
      have hai : a + 1 = i := Option.some.inj hg
      rw [← hai]
      exact (logEmitted_iff _ _).mp hb
    · rw [if_neg hb] at hg
      cases hg
  · intro h
    refine ⟨i - 1, List.mem_range.mpr (by omega), ?_⟩
    have he : i - 1 + 1 = i := by omega
    rw [he, if_pos ((logEmitted_iff i batches).mpr h)]

/-- Witness for C4 at iteration 100 of a 250-batch epoch. -/
theorem train_log_cadence_witness :
    (1 ≤ 100 ∧ 100 ≤ 250) ∧
    ((100 ∈ trainLogIters 250) ↔ (100 % 100 = 0 ∨ 100 = 250)) :=
  ⟨by omega, train_log_cadence 100 250 (by omega) (by omega)⟩

/-- C6: for every non-empty validation sequence, the reported average PSNR
is the arithmetic mean of the per-batch PSNR values and is invariant under
any permutation of the validation batches. -/
theorem validate_avg_perm_invariant (l1 l2 : List ℚ) (h : l1 ≠ [])
    (hp : l1.Perm l2) :
    validateAvg l1 = some (l1.sum / l1.length) ∧
    validateAvg l2 = validateAvg l1 := by
  have hlen : ¬ l1.length = 0 := fun hh => h (List.length_eq_zero.mp hh)
  constructor
  · rw [validateAvg, pythonDiv, if_neg hlen]
  · rw [validateAvg, validateAvg, ← hp.sum_eq, ← hp.length_eq]

/-- Witness for C6 on the two-batch sequence `[1, 2]` and its reversal. -/
theorem validate_avg_perm_invariant_witness :
    validateAvg [(1 : ℚ), 2] = some (([(1 : ℚ), 2]).sum / ([(1 : ℚ), 2]).length) ∧
    validateAvg [(2 : ℚ), 1] = validateAvg [(1 : ℚ), 2] :=
  validate_avg_perm_invariant [1, 2] [2, 1] (by simp) (List.Perm.swap 2 1 [])

/-- C9: the validation pass reports no average exactly when the validation
sequence is empty: with zero batches the epoch average divides the
accumulated total by zero, which Python's division raises on
(ZeroDivisionError), so validation fails for every epoch instead of
reporting an average. -/
theorem validate_empty_fails (psnrs : List ℚ) :
    validateAvg psnrs = none ↔ psnrs = [] := by
  rw [validateAvg, pythonDiv]
  constructor
  · intro h
    by_cases hl : psnrs.length = 0
    · exact List.length_eq_zero.mp hl
    · rw [if_neg hl] at h
      cases h
  · intro h
    subst h
    rfl

/-- C10: when the resume flag is false, or it is true but the configured
resume path is the empty string, the resume step loads nothing and the
model state is returned unchanged. -/
theorem resume_disabled_noop (resume : Bool) (w : String) (strict : Bool)
    (file model : StateDict) (h : resume = false ∨ w = "") :
    resume_checkpoint resume w strict file model = Except.ok model := by
  rcases h with h | h
  · subst h
    rfl
  · subst h
    cases resume
    · rfl
    · simp [resume_checkpoint]

/-- Witness for C10 with the resume flag off. -/
theorem resume_disabled_noop_witness :
    resume_checkpoint false "weights.pth" true [] [("w1", 3)] =
      Except.ok [("w1", 3)] :=
  resume_disabled_noop false "weights.pth" true [] [("w1", 3)] (Or.inl rfl)

/-- C1 counterexample: a one-epoch run `range(0, 1)` whose average PSNR is
0.  The rolling event shows epoch 0 executed; epoch 0 has no prior epochs,
so the claim as stated (best written iff the PSNR strictly exceeds every
prior epoch's PSNR) demands a best-snapshot write, but the code compares
against the initial `best_psnr = 0.0` (src/train.py line 168) and `0 > 0`
fails, so no best snapshot is written. -/
theorem best_written_counterexample :
    SaveEvent.best 0 ∉ (mainRun 0 1 (fun _ => (0 : ℚ))).2 ∧
    SaveEvent.rolling (0 + 1) ∈ (mainRun 0 1 (fun _ => (0 : ℚ))).2 := by
  decide

/-- C1 (amended): for every run over `[s, e)` and every executed epoch
`s + k`, the best snapshot is written after that epoch's validation iff the
epoch's average PSNR is strictly greater than `0.0` (the initial tracked
best) and strictly greater than every prior epoch's average PSNR in the
same run (ties, including ties with the initial 0.0, do not update best). -/
theorem best_written_iff (s e k : ℕ) (f : ℕ → ℚ) (hk : k < e - s) :
    SaveEvent.best (s + k) ∈ (mainRun s e f).2 ↔
      (0 < f (s + k) ∧ ∀ j, j < k → f (s + j) < f (s + k)) := by
  have hsplit : (mainRun s e f).2
      = (loopEvents (epochIndices s e) 0 f).2 ++ [SaveEvent.last] := rfl
  rw [hsplit, List.mem_append, epochIndices,
    best_mem_range' (e - s) s 0 f k hk, bestAfterFrom_lt_iff]
  simp

/-- Witness for the amended C1: a two-epoch run with PSNR values 0 then 1;
epoch 1 beats both the initial 0.0 and epoch 0, so best.pth is written. -/
theorem best_written_iff_witness :
    1 < 2 - 0 ∧
    (SaveEvent.best (0 + 1) ∈ (mainRun 0 2 (fun n => (n : ℚ))).2 ↔
      (0 < ((0 + 1 : ℕ) : ℚ) ∧
        ∀ j, j < 1 → ((0 + j : ℕ) : ℚ) < ((0 + 1 : ℕ) : ℚ))) :=
  ⟨by omega, best_written_iff 0 2 1 (fun n => (n : ℚ)) (by omega)⟩

/-- C2: for every epoch range `[s, e)` the loop executes exactly `e - s`
epochs; the run writes exactly `e - s` rolling snapshots with pairwise
distinct file names (`epoch_<i+1>.pth`), and exactly one last snapshot,
written unconditionally after the loop as the final event. -/
theorem epoch_loop_counts (s e : ℕ) (f : ℕ → ℚ) (h : s ≤ e) :
    (epochIndices s e).length = e - s ∧
    ((mainRun s e f).2.countP isRolling) = e - s ∧
    ((mainRun s e f).2.filterMap rollingNum).Nodup ∧
    ((mainRun s e f).2.countP isLast) = 1 ∧
    (mainRun s e f).2.getLast? = some SaveEvent.last := by
  have hfm : (mainRun s e f).2
      = (loopEvents (epochIndices s e) 0 f).2 ++ [SaveEvent.last] := rfl
  refine ⟨?_, ?_, ?_, ?_, ?_⟩
  · rw [epochIndices, List.length_range']
  · rw [hfm, List.countP_append, countP_rolling_loopEvents, epochIndices,
      List.length_range']
    simp [List.countP_cons, isRolling]
  · rw [hfm, List.filterMap_append, filterMap_rollingNum_loopEvents]
    have hnil : List.filterMap rollingNum [SaveEvent.last] = [] := rfl
    rw [hnil, List.append_nil, epochIndices]
    exact List.Nodup.map (fun a b hab => by omega) (List.nodup_range' s (e - s))
  · rw [hfm, List.countP_append, countP_last_loopEvents]
    rfl
  · rw [hfm, List.getLast?_concat]

/-- Witness for C2 on the range `[1, 3)` with constant PSNR 1. -/
theorem epoch_loop_counts_witness :
    1 ≤ 3 ∧
    ((epochIndices 1 3).length = 3 - 1 ∧
     ((mainRun 1 3 (fun _ => 1)).2.countP isRolling) = 3 - 1 ∧
     ((mainRun 1 3 (fun _ => 1)).2.filterMap rollingNum).Nodup ∧
     ((mainRun 1 3 (fun _ => 1)).2.countP isLast) = 1 ∧
     (mainRun 1 3 (fun _ => 1)).2.getLast? = some SaveEvent.last) :=
  ⟨by omega, epoch_loop_counts 1 3 (fun _ => 1) (by omega)⟩

/-- C7: the tracked best PSNR is the running maximum: the loop's final best
equals `bestAfter` at `e - s`, and after each executed epoch's checkpoint
decision the tracked best equals the maximum of its previous value and that
epoch's average PSNR — hence it is monotonically non-decreasing. -/
theorem best_psnr_running_max (s e k : ℕ) (f : ℕ → ℚ) (hk : k < e - s) :
    (mainRun s e f).1 = bestAfter s (e - s) f ∧
    bestAfter s (k + 1) f = max (bestAfter s k f) (f (s + k)) ∧
    bestAfter s k f ≤ bestAfter s (k + 1) f := by
  refine ⟨?_, ?_, ?_⟩
  · have hfst : (mainRun s e f).1 = (loopEvents (epochIndices s e) 0 f).1 := rfl
    rw [hfst, epochIndices, loopEvents_fst_range']
    rfl
  · simp only [bestAfter]
    rw [bestAfterFrom_succ_back, max_comm]
  · simp only [bestAfter]
    rw [bestAfterFrom_succ_back]
    exact le_max_right _ _

/-- Witness for C7 on the run `[0, 2)` with PSNR values 0 and 1. -/
theorem best_psnr_running_max_witness :
    0 < 2 - 0 ∧
    ((mainRun 0 2 (fun n => (n : ℚ))).1 = bestAfter 0 (2 - 0) (fun n => (n : ℚ)) ∧
     bestAfter 0 (0 + 1) (fun n => (n : ℚ))
        = max (bestAfter 0 0 (fun n => (n : ℚ))) ((0 + 0 : ℕ) : ℚ) ∧
     bestAfter 0 0 (fun n => (n : ℚ)) ≤ bestAfter 0 (0 + 1) (fun n => (n : ℚ))) :=
  ⟨by omega, best_psnr_running_max 0 2 0 (fun n => (n : ℚ)) (by omega)⟩

/-- C8: with resume configured (non-empty path) and a checkpoint whose
parameter-name set differs from the model's, `strict=true` fails fatally
before any epoch runs (the whole run is an error, producing no checkpoint
writes), while `strict=false` succeeds and the run proceeds with the merged
state: the parameter names are exactly the model's, and each name takes the
file's value when the file has it and keeps the model's value otherwise —
mismatched entries are silently skipped. -/
theorem resume_strict_mismatch (w : String) (hw : w ≠ "")
    (file model : StateDict) (hdiff : sameNameSet model file = false)
    (s e : ℕ) (f : ℕ → ℚ) (n : String) :
    main true w true file model s e f =
      Except.error "strict load failed: parameter name sets differ" ∧
    main true w false file model s e f =
      Except.ok (mergeDict model file, mainRun s e f) ∧
    (mergeDict model file).map Prod.fst = model.map Prod.fst ∧
    (mergeDict model file).lookup n
      = (model.lookup n).map (fun v => (file.lookup n).getD v) := by
  have herr : resume_checkpoint true w true file model
      = Except.error "strict load failed: parameter name sets differ" := by
    simp [resume_checkpoint, hw, load_state_dict, hdiff]
  have hok : resume_checkpoint true w false file model
      = Except.ok (mergeDict model file) := by
    simp [resume_checkpoint, hw, load_state_dict]
  refine ⟨?_, ?_, ?_, ?_⟩
  · rw [main, herr]
  · rw [main, hok]
  · rw [mergeDict, List.map_map]
    rfl
  · exact lookup_mergeDict model file n

/-- Witness for C8: model `{a, c}` versus checkpoint file `{b, c}`; strict
loading fails, non-strict loading keeps `a`, updates `c`, and skips `b`. -/
theorem resume_strict_mismatch_witness :
    main true "srcnn.pth" true [("b", 2), ("c", 9)] [("a", 1), ("c", 5)]
        0 1 (fun _ => 1) =
      Except.error "strict load failed: parameter name sets differ" ∧
    main true "srcnn.pth" false [("b", 2), ("c", 9)] [("a", 1), ("c", 5)]
        0 1 (fun _ => 1) =
      Except.ok (mergeDict [("a", 1), ("c", 5)] [("b", 2), ("c", 9)],
                 mainRun 0 1 (fun _ => 1)) :=
  ⟨(resume_strict_mismatch "srcnn.pth" (by decide)
      [("b", 2), ("c", 9)] [("a", 1), ("c", 5)] (by decide) 0 1 (fun _ => 1) "c").1,
   (resume_strict_mismatch "srcnn.pth" (by decide)
      [("b", 2), ("c", 9)] [("a", 1), ("c", 5)] (by decide) 0 1 (fun _ => 1) "c").2.1⟩

end SRCNN
